import Mathlib

/-!
Shallow embedding of the search engine of text_searcher.py (TextSearcher).

Lines of text are modelled as the strings Python's file iterator yields
(including any trailing newline).  Machine-level concerns (actual file
handles, Qt signal plumbing) are modelled as explicit data: a file is a
list of lines plus a description of what happens when the iterator is
advanced past the last decodable line, and the three Qt signals become an
explicit event trace.  The cooperative cancellation flag is modelled by
the index of the first read of self._is_running that observes False
(stopAt = none means stop() is never called); the flag is monotone, so
this captures every asynchronous stop() schedule.
-/

/-- ASCII restriction of a regex word character (Python re module's w class);
all inputs reaching the expression parser in this development are ASCII. -/
def isWordChar (c : Char) : Bool := c.isAlphanum || c == '_'

/-- Word-boundary test on the left of a match position: true at the start of
the string or after a non-word character. -/
def prevNonWord : Option Char → Bool
  | none => true
  | some c => !(isWordChar c)

/-- Word-boundary test on the right of a match: true at end of string or
before a non-word character. -/
def headNonWord : List Char → Bool
  | [] => true
  | c :: _ => !(isWordChar c)

/-- Python str.strip(): drop whitespace from both ends. -/
def pyStrip (s : String) : String :=
  String.mk (((s.data.dropWhile Char.isWhitespace).reverse.dropWhile Char.isWhitespace).reverse)

/-- Python str.rstrip(): drop whitespace from the right end. -/
def pyRstrip (s : String) : String :=
  String.mk ((s.data.reverse.dropWhile Char.isWhitespace).reverse)

/-- Substring test on char lists: needle occurs contiguously in hay. -/
def listInfix : List Char → List Char → Bool
  | needle, [] => needle.isEmpty
  | needle, c :: t => needle.isPrefixOf (c :: t) || listInfix needle t

/-- Python's substring operator: needle in hay.  The empty needle is
contained in every string, as in Python. -/
def strContains (needle hay : String) : Bool := listInfix needle.data hay.data

/-- One pass of re.sub(r'\band\b', ' & ', expr) from
LogicalExpressionParser._preprocess: replace every word-bounded "and",
scanning left to right; boundary checks look at the original neighbours. -/
def subAnd : Option Char → List Char → List Char
  | _, [] => []
  | prev, 'a' :: 'n' :: 'd' :: rest =>
    if prevNonWord prev && headNonWord rest then
      ' ' :: '&' :: ' ' :: subAnd (some 'd') rest
    else 'a' :: subAnd (some 'a') ('n' :: 'd' :: rest)
  | prev, c :: cs => c :: subAnd (some c) cs

/-- One pass of re.sub(r'\bor\b', ' | ', expr) from _preprocess. -/
def subOr : Option Char → List Char → List Char
  | _, [] => []
  | prev, 'o' :: 'r' :: rest =>
    if prevNonWord prev && headNonWord rest then
      ' ' :: '|' :: ' ' :: subOr (some 'r') rest
    else 'o' :: subOr (some 'o') ('r' :: rest)
  | prev, c :: cs => c :: subOr (some c) cs

/-- Helper for the pattern s*( : returns the number of characters consumed
(whitespace run plus the opening parenthesis) when the list starts with
optional whitespace followed by a parenthesis. -/
def skipSpacesParen : List Char → Option Nat
  | [] => none
  | c :: cs =>
    if c == '(' then some 1
    else if c.isWhitespace then (skipSpacesParen cs).map (· + 1)
    else none

/-- One pass of re.sub(r'\bnot\s*\(', '!', expr) from _preprocess.  Note the
replacement is a bare exclamation mark: the opening parenthesis matched by
the pattern is consumed and NOT restored. -/
def subNotParen : Option Char → List Char → List Char
  | _, [] => []
  | prev, 'n' :: 'o' :: 't' :: rest =>
    if prevNonWord prev then
      match skipSpacesParen rest with
      | some n => '!' :: subNotParen (some '(') (rest.drop n)
      | none => 'n' :: subNotParen (some 'n') ('o' :: 't' :: rest)
    else 'n' :: subNotParen (some 'n') ('o' :: 't' :: rest)
  | prev, c :: cs => c :: subNotParen (some c) cs
termination_by _ l => l.length
decreasing_by
  · simp [List.length_drop]; omega
  · simp
  · simp
  · simp

/-- LogicalExpressionParser._preprocess: normalise and / or / not( to
the internal tokens, in the source's substitution order. -/
def preprocess (l : List Char) : List Char :=
  subNotParen none (subOr none (subAnd none l))

/-- Matcher for re pattern !\s*\(\s*"([^"]*)"\s*\) (and its single-quote
variant), with replacement ("g" not in text).  Returns the replacement and
the total number of characters matched. -/
def tryBangQuote (q : Char) (l : List Char) : Option (List Char × Nat) :=
  match l with
  | '!' :: rest =>
    match rest.dropWhile Char.isWhitespace with
    | '(' :: r2 =>
      match r2.dropWhile Char.isWhitespace with
      | c0 :: r4 =>
        if c0 == q then
          let g := r4.takeWhile (fun c => !(c == q))
          match r4.dropWhile (fun c => !(c == q)) with
          | _ :: r6 =>
            match r6.dropWhile Char.isWhitespace with
            | ')' :: r8 =>
              some ('(' :: q :: (g ++ [q] ++ " not in text)".data), l.length - r8.length)
            | _ => none
          | [] => none
        else none
      | [] => none
    | _ => none
  | _ => none

/-- Matcher for re pattern !\s*\(([^)]+)\) with replacement not (g). -/
def tryBangAny (l : List Char) : Option (List Char × Nat) :=
  match l with
  | '!' :: rest =>
    match rest.dropWhile Char.isWhitespace with
    | '(' :: r2 =>
      let g := r2.takeWhile (fun c => !(c == ')'))
      match r2.dropWhile (fun c => !(c == ')')) with
      | ')' :: r4 =>
        if g.isEmpty then none
        else some ("not (".data ++ g ++ [')'], l.length - r4.length)
      | _ => none
    | _ => none
  | _ => none

/-- Matcher for re pattern "([^"]*)" (or the single-quote variant) with
replacement ("g" in text). -/
def tryQuote (q : Char) (l : List Char) : Option (List Char × Nat) :=
  match l with
  | c :: rest =>
    if c == q then
      let g := rest.takeWhile (fun x => !(x == q))
      match rest.dropWhile (fun x => !(x == q)) with
      | _ :: r3 => some ('(' :: q :: (g ++ [q] ++ " in text)".data), l.length - r3.length)
      | [] => none
    else none
  | [] => none

/-- Driver of one re.sub pass: scan left to right; on a match emit the
replacement and resume after the matched text (replacements are never
rescanned), otherwise copy one character. -/
def reSub (try1 : List Char → Option (List Char × Nat)) : List Char → List Char
  | [] => []
  | c :: cs =>
    match try1 (c :: cs) with
    | some (rep, n) => rep ++ reSub try1 (cs.drop (n - 1))
    | none => c :: reSub try1 cs
termination_by l => l.length
decreasing_by
  · simp [List.length_drop]; omega
  · simp

/-- LogicalExpressionParser._convert_to_python: the five re.sub passes, in
source order. -/
def convert_to_python (l : List Char) : List Char :=
  reSub (tryQuote '\'')
    (reSub (tryQuote '"')
      (reSub tryBangAny
        (reSub (tryBangQuote '\'')
          (reSub (tryBangQuote '"') l))))

/-- Tokens of the Python expression fragment reachable from
_convert_to_python's output. -/
inductive PyTok where
  | lparen
  | rparen
  | amp
  | pipe
  | strTok (s : String)
  | identTok (s : String)
deriving Repr, BEq, DecidableEq

/-- Tokeniser for eval's input, restricted to the fragment that
_convert_to_python can produce: parentheses, & and |, quoted string
literals without escape sequences, and identifiers/keywords.  Any other
character (in particular a stray exclamation mark) is a Python
SyntaxError, modelled as none. -/
def tokenize : List Char → Option (List PyTok)
  | [] => some []
  | c :: cs =>
    if c.isWhitespace then tokenize cs
    else if c == '(' then (tokenize cs).map (PyTok.lparen :: ·)
    else if c == ')' then (tokenize cs).map (PyTok.rparen :: ·)
    else if c == '&' then (tokenize cs).map (PyTok.amp :: ·)
    else if c == '|' then (tokenize cs).map (PyTok.pipe :: ·)
    else if c == '"' || c == '\'' then
      let g := cs.takeWhile (fun x => !(x == c))
      if g.length == cs.length then none
      else (tokenize (cs.drop (g.length + 1))).map (PyTok.strTok (String.mk g) :: ·)
    else if isWordChar c then
      let w := cs.takeWhile isWordChar
      (tokenize (cs.drop w.length)).map (PyTok.identTok (String.mk (c :: w)) :: ·)
    else none
termination_by l => l.length
decreasing_by
  · simp
  · simp
  · simp
  · simp
  · simp
  · simp [List.length_drop]; omega
  · simp [List.length_drop]; omega

/-- Abstract syntax of the Python boolean-expression fragment: string
literals, name references, short-circuit or / and, unary not, the in and
not-in membership tests, and the bitwise | and un-short-circuited &. -/
inductive PyExpr where
  | strLit (s : String)
  | nameRef (s : String)
  | orE (a b : PyExpr)
  | andE (a b : PyExpr)
  | notE (a : PyExpr)
  | inE (a b : PyExpr)
  | notInE (a b : PyExpr)
  | bitOr (a b : PyExpr)
  | bitAnd (a b : PyExpr)
deriving Repr

/-- Recursive-descent parse of the fragment with Python's precedence
(or < and < not < in / not in < | < &< atoms).  The level argument selects
the precedence tier; the fuel argument bounds recursion depth and is
always passed a value exceeding any possible depth for the given token
list, so the fuel-exhausted branch is unreachable.  Binary tiers are
parsed right-recursively; all the operators of the fragment are
associative in value, so this agrees with Python's left associativity. -/
def parseL : Nat → Nat → List PyTok → Option (PyExpr × List PyTok)
  | 0, _, _ => none
  | fuel + 1, 0, ts =>
    match parseL fuel 1 ts with
    | some (a, PyTok.identTok "or" :: r2) =>
      match parseL fuel 0 r2 with
      | some (b, r3) => some (PyExpr.orE a b, r3)
      | none => none
    | other => other
  | fuel + 1, 1, ts =>
    match parseL fuel 2 ts with
    | some (a, PyTok.identTok "and" :: r2) =>
      match parseL fuel 1 r2 with
      | some (b, r3) => some (PyExpr.andE a b, r3)
      | none => none
    | other => other
  | fuel + 1, 2, ts =>
    match ts with
    | PyTok.identTok "not" :: r =>
      match parseL fuel 2 r with
      | some (a, r2) => some (PyExpr.notE a, r2)
      | none => none
    | _ => parseL fuel 3 ts
  | fuel + 1, 3, ts =>
    match parseL fuel 4 ts with
    | some (a, PyTok.identTok "in" :: r2) =>
      match parseL fuel 4 r2 with
      | some (b, r3) => some (PyExpr.inE a b, r3)
      | none => none
    | some (a, PyTok.identTok "not" :: PyTok.identTok "in" :: r2) =>
      match parseL fuel 4 r2 with
      | some (b, r3) => some (PyExpr.notInE a b, r3)
      | none => none
    | other => other
  | fuel + 1, 4, ts =>
    match parseL fuel 5 ts with
    | some (a, PyTok.pipe :: r2) =>
      match parseL fuel 4 r2 with
      | some (b, r3) => some (PyExpr.bitOr a b, r3)
      | none => none
    | other => other
  | fuel + 1, 5, ts =>
    match parseL fuel 6 ts with
    | some (a, PyTok.amp :: r2) =>
      match parseL fuel 5 r2 with
      | some (b, r3) => some (PyExpr.bitAnd a b, r3)
      | none => none
    | other => other
  | fuel + 1, _, ts =>
    match ts with
    | PyTok.strTok s :: r => some (PyExpr.strLit s, r)
    | PyTok.identTok n :: r =>
      if n == "and" || n == "or" || n == "not" || n == "in" then none
      else some (PyExpr.nameRef n, r)
    | PyTok.lparen :: r =>
      match parseL fuel 0 r with
      | some (e, PyTok.rparen :: r2) => some (e, r2)
      | _ => none
    | _ => none

/-- Full parse of eval's input: tokenise, parse at the lowest tier, and
require all tokens consumed; none models a Python SyntaxError. -/
def pyParseExpr (cs : List Char) : Option PyExpr :=
  match tokenize cs with
  | none => none
  | some ts =>
    match parseL (7 * (ts.length + 1)) 0 ts with
    | some (e, []) => some e
    | _ => none

/-- Values of the fragment: booleans and strings (the only types eval can
produce here, since the environment binds just the string text). -/
inductive PyVal where
  | boolV (b : Bool)
  | strV (s : String)
deriving Repr, DecidableEq

/-- Python truthiness of a fragment value. -/
def pyTruthy : PyVal → Bool
  | .boolV b => b
  | .strV s => !(s == "")

/-- Evaluation of the fragment against the environment binding text,
with builtins stripped as in the source.  none models a runtime exception
(NameError for an unknown identifier, TypeError for & / | / in applied to
operands of the wrong type); or and and short-circuit on truthiness and
return the operand value itself, as in Python. -/
def pyEvalAst (text : String) : PyExpr → Option PyVal
  | .strLit s => some (.strV s)
  | .nameRef n => if n == "text" then some (.strV text) else none
  | .orE a b =>
    match pyEvalAst text a with
    | none => none
    | some va => if pyTruthy va then some va else pyEvalAst text b
  | .andE a b =>
    match pyEvalAst text a with
    | none => none
    | some va => if pyTruthy va then pyEvalAst text b else some va
  | .notE a =>
    match pyEvalAst text a with
    | none => none
    | some va => some (.boolV (!(pyTruthy va)))
  | .inE a b =>
    match pyEvalAst text a, pyEvalAst text b with
    | some (.strV x), some (.strV y) => some (.boolV (strContains x y))
    | some _, some _ => none
    | _, _ => none
  | .notInE a b =>
    match pyEvalAst text a, pyEvalAst text b with
    | some (.strV x), some (.strV y) => some (.boolV (!(strContains x y)))
    | some _, some _ => none
    | _, _ => none
  | .bitOr a b =>
    match pyEvalAst text a, pyEvalAst text b with
    | some (.boolV x), some (.boolV y) => some (.boolV (x || y))
    | some _, some _ => none
    | _, _ => none
  | .bitAnd a b =>
    match pyEvalAst text a, pyEvalAst text b with
    | some (.boolV x), some (.boolV y) => some (.boolV (x && y))
    | some _, some _ => none
    | _, _ => none

/-- LogicalExpressionParser(expression).parse() composed with the use site
if self.matcher(line): strip the raw expression (done in init),
preprocess it, convert it to a Python expression, and on each call
evaluate it against the line, taking the truthiness of the result; every
parse or evaluation exception yields False via the bare except. -/
def logicalPredicate (rawExpr : String) (text : String) : Bool :=
  match pyParseExpr (convert_to_python (preprocess (pyStrip rawExpr).data)) with
  | none => false
  | some ast =>
    match pyEvalAst text ast with
    | none => false
    | some v => pyTruthy v

/-- SearchThread.init's matcher: the logical parser when
use_logical_search is set, otherwise the plain Python substring test
keyword in text. -/
def mkMatcher (keyword : String) (useLogicalSearch : Bool) : String → Bool :=
  if useLogicalSearch then logicalPredicate keyword
  else fun text => strContains keyword text

/-- SearchThread.init's ignore_matcher: built only when ignore_keyword is
truthy and its strip() is truthy; otherwise None. -/
def mkIgnoreMatcher (ignoreKeyword : String) (useIgnoreLogical : Bool) :
    Option (String → Bool) :=
  if ignoreKeyword != "" && pyStrip ignoreKeyword != "" then
    some (if useIgnoreLogical then logicalPredicate ignoreKeyword
          else fun text => strContains ignoreKeyword text)
  else none

/-- SearchThread._should_ignore: False when no ignore matcher was built. -/
def should_ignore (m : Option (String → Bool)) (line : String) : Bool :=
  match m with
  | none => false
  | some f => f line

/-- Events observable on the three Qt signal channels of SearchThread:
search_progress (a rendered result plus the running count),
search_error, and search_finished (final count plus cancelled flag). -/
inductive Event where
  | progress (result : String) (count : Nat)
  | error (message : String)
  | finished (count : Nat) (cancelled : Bool)
deriving Repr, DecidableEq

/-- Value of the i-th read of the cancellation flag self._is_running:
reads numbered below stopAt see True, later reads see False; stopAt =
none means stop() is never called.  Monotonicity of a one-shot stop()
makes this the general case. -/
def flagAt (stopAt : Option Nat) (i : Nat) : Bool :=
  match stopAt with
  | none => true
  | some n => decide (i < n)

/-- How iterating a modelled file behaves once the listed lines are
exhausted: plain end of file, a UnicodeDecodeError raised by the decoder,
or some other I/O exception. -/
inductive FileTail where
  | eof
  | decodeError (msg : String)
  | ioError (msg : String)
deriving Repr, DecidableEq

/-- How one scan of a file ended: the loop completed, it returned early
because the cancellation flag was observed False, or an exception
propagated out of the scan (losing the scan's local count). -/
inductive ScanExit where
  | completed
  | stopped
  | raisedDecode (msg : String)
  | raisedOther (msg : String)
deriving Repr, DecidableEq

/-- Result of one scan: the progress events it emitted, the next unread
index of the cancellation flag, the running count at exit, and how the
scan ended. -/
structure ScanRes where
  events : List Event
  reads : Nat
  count : Nat
  outcome : ScanExit
deriving Repr, DecidableEq

/-- The 80-equals-sign rule line used by the context renderer. -/
def rule80 : String := String.mk (List.replicate 80 '=')

/-- SearchThread._search_normal: iterate lines 1-indexed; per line read
the cancellation flag, skip ignored lines, and on a match emit
"path (line n): stripped-line" with the incremented running count. -/
def search_normal (matcher : String → Bool) (ignore : Option (String → Bool))
    (stopAt : Option Nat) (filePath : String) :
    List String → FileTail → Nat → Nat → Nat → ScanRes
  | [], tail, _, i, count =>
    match tail with
    | .eof => ⟨[], i, count, .completed⟩
    | .decodeError m => ⟨[], i, count, .raisedDecode m⟩
    | .ioError m => ⟨[], i, count, .raisedOther m⟩
  | line :: rest, tail, lineNo, i, count =>
    if !(flagAt stopAt i) then ⟨[], i + 1, count, .stopped⟩
    else if should_ignore ignore line then
      search_normal matcher ignore stopAt filePath rest tail (lineNo + 1) (i + 1) count
    else if matcher line then
      let record := filePath ++ " (line " ++ toString lineNo ++ "): " ++ pyStrip line ++ "\n"
      let r := search_normal matcher ignore stopAt filePath rest tail (lineNo + 1) (i + 1) (count + 1)
      ⟨Event.progress record (count + 1) :: r.events, r.reads, r.count, r.outcome⟩
    else
      search_normal matcher ignore stopAt filePath rest tail (lineNo + 1) (i + 1) count

/-- How the look-ahead loop of _search_with_context ended: normally
(k lines collected, or StopIteration broke the loop), or with an
exception raised by next(f). -/
inductive FutureExit where
  | ok
  | raisedDecode (msg : String)
  | raisedOther (msg : String)
deriving Repr, DecidableEq

/-- The while-loop of _search_with_context that reads up to k following
non-ignored lines with next(f).  Returns the rendered context lines, the
number of lines consumed from the stream, and how the loop ended.  The
displayed number of the j-th collected line is lineNo + collected + 1:
skipped ignored lines do not advance it (as in the source).  The loop
reads the cancellation flag not at all. -/
def collect_future (ignore : Option (String → Bool)) (k : Nat) (lineNo : Nat) :
    Nat → List String → FileTail → (List String × Nat × FutureExit)
  | collected, rem, tail =>
    if collected ≥ k then ([], 0, .ok)
    else
      match rem with
      | [] =>
        match tail with
        | .eof => ([], 0, FutureExit.ok)
        | .decodeError m => ([], 0, .raisedDecode m)
        | .ioError m => ([], 0, .raisedOther m)
      | l :: ls =>
        if should_ignore ignore l then
          let r := collect_future ignore k lineNo collected ls tail
          (r.1, r.2.1 + 1, r.2.2)
        else
          let r := collect_future ignore k lineNo (collected + 1) ls tail
          (("  " ++ toString (lineNo + collected + 1) ++ ": " ++ pyRstrip l) :: r.1,
            r.2.1 + 1, r.2.2)

/-- The deque(maxlen = k) of _search_with_context: append and keep the
most recent k entries. -/
def pushBuf (k : Nat) (buf : List (Nat × String)) (x : Nat × String) :
    List (Nat × String) :=
  let b := buf ++ [x]
  b.drop (b.length - k)

/-- SearchThread._search_with_context.  The enumCtr argument is
enumerate's internal counter (number of loop iterations so far): the next
yielded line is numbered enumCtr + 1 even when look-ahead has consumed
stream lines behind enumerate's back, exactly as in the source.  The
matched line is pushed into the deque before rendering; prior context is
the deque entries with a smaller number; look-ahead failures propagate
as exceptions before the block is emitted. -/
def search_with_context (matcher : String → Bool) (ignore : Option (String → Bool))
    (stopAt : Option Nat) (k : Nat) (filePath : String) :
    List String → FileTail → Nat → List (Nat × String) → Nat → Nat → ScanRes
  | [], tail, _, _, i, count =>
    match tail with
    | .eof => ⟨[], i, count, .completed⟩
    | .decodeError m => ⟨[], i, count, .raisedDecode m⟩
    | .ioError m => ⟨[], i, count, .raisedOther m⟩
  | line :: rest, tail, enumCtr, buf, i, count =>
    if !(flagAt stopAt i) then ⟨[], i + 1, count, .stopped⟩
    else if should_ignore ignore line then
      search_with_context matcher ignore stopAt k filePath rest tail (enumCtr + 1) buf (i + 1) count
    else
      let buf2 := pushBuf k buf (enumCtr + 1, line)
      if matcher line then
        let fut := collect_future ignore k (enumCtr + 1) 0 rest tail
        match fut.2.2 with
        | .raisedDecode m => ⟨[], i + 1, count, .raisedDecode m⟩
        | .raisedOther m => ⟨[], i + 1, count, .raisedOther m⟩
        | .ok =>
          let priorLines := (buf2.filter (fun p => p.1 < enumCtr + 1)).map
            (fun p => "  " ++ toString p.1 ++ ": " ++ pyRstrip p.2)
          let record := String.intercalate "\n"
            (rule80 :: (filePath ++ " (line " ++ toString (enumCtr + 1) ++ "):") :: priorLines
              ++ [("> " ++ toString (enumCtr + 1) ++ ": " ++ pyRstrip line)]
              ++ fut.1 ++ [rule80 ++ "\n"])
          let r := search_with_context matcher ignore stopAt k filePath
            (rest.drop fut.2.1) tail (enumCtr + 1) buf2 (i + 1) (count + 1)
          ⟨Event.progress record (count + 1) :: r.events, r.reads, r.count, r.outcome⟩
      else
        search_with_context matcher ignore stopAt k filePath rest tail (enumCtr + 1) buf2 (i + 1) count
termination_by lines _ _ _ _ _ => lines.length
decreasing_by
  · simp
  · simp [List.length_drop]; omega
  · simp

/-- What happens when one candidate encoding opens one file: the open
call itself raises (decodeLike distinguishes UnicodeDecodeError or
LookupError from other exceptions), or the file opens and yields the
listed lines followed by the given tail behaviour. -/
inductive Attempt where
  | openFail (decodeLike : Bool) (msg : String)
  | opened (lines : List String) (tail : FileTail)

/-- One file as the job sees it: its base name (for the filename filter),
its full path (for records and error messages), the chardet detection
result on its leading bytes (none when detection fails or errors), the
behaviour of opening it under each candidate encoding, and the behaviour
of the final utf-8 errors=ignore open. -/
structure FileSpec where
  name : String
  path : String
  detected : Option String
  attempt : String → Attempt
  lossy : Attempt

/-- Result of _search_file: emitted events, next flag-read index, and the
returned running count. -/
structure FileRes where
  events : List Event
  reads : Nat
  count : Nat
deriving Repr, DecidableEq

/-- Mode selection inside _search_file: the context scanner when
context_lines is positive, the normal scanner otherwise. -/
def scan_open (matcher : String → Bool) (ignore : Option (String → Bool))
    (stopAt : Option Nat) (k : Nat) (path : String)
    (lines : List String) (tail : FileTail) (i count : Nat) : ScanRes :=
  if k > 0 then search_with_context matcher ignore stopAt k path lines tail 0 [] i count
  else search_normal matcher ignore stopAt path lines tail 1 i count

/-- Message format of the search_error signal in _search_file. -/
def error_text (path msg : String) : String :=
  "无法读取文件: " ++ path ++ "\n错误: " ++ msg

/-- The encoding loop of _search_file over the remaining candidate list,
followed by the final utf-8 errors=ignore attempt.  A decode-like failure
moves to the next candidate, keeping any events already emitted but
losing the partial scan's count (the exception skips the return);
any other exception emits search_error and returns the original count;
in the final attempt every exception is caught that way. -/
def search_file_encs (matcher : String → Bool) (ignore : Option (String → Bool))
    (stopAt : Option Nat) (k : Nat) (fs : FileSpec) :
    List String → Nat → Nat → FileRes
  | [], i, count =>
    match fs.lossy with
    | .openFail _ msg => ⟨[Event.error (error_text fs.path msg)], i, count⟩
    | .opened lines tail =>
      let r := scan_open matcher ignore stopAt k fs.path lines tail i count
      match r.outcome with
      | .completed => ⟨r.events, r.reads, r.count⟩
      | .stopped => ⟨r.events, r.reads, r.count⟩
      | .raisedDecode m => ⟨r.events ++ [Event.error (error_text fs.path m)], r.reads, count⟩
      | .raisedOther m => ⟨r.events ++ [Event.error (error_text fs.path m)], r.reads, count⟩
  | enc :: rest, i, count =>
    match fs.attempt enc with
    | .openFail true _ => search_file_encs matcher ignore stopAt k fs rest i count
    | .openFail false msg => ⟨[Event.error (error_text fs.path msg)], i, count⟩
    | .opened lines tail =>
      let r := scan_open matcher ignore stopAt k fs.path lines tail i count
      match r.outcome with
      | .completed => ⟨r.events, r.reads, r.count⟩
      | .stopped => ⟨r.events, r.reads, r.count⟩
      | .raisedDecode _ =>
        let r2 := search_file_encs matcher ignore stopAt k fs rest r.reads count
        ⟨r.events ++ r2.events, r2.reads, r2.count⟩
      | .raisedOther m => ⟨r.events ++ [Event.error (error_text fs.path m)], r.reads, count⟩

/-- The fixed fallback candidate encodings appended by _search_file. -/
def fallback_encodings : List String := ["utf-8", "gbk", "gb2312", "gb18030"]

/-- The dedupe loop of _search_file: keep an encoding when it is truthy
(non-empty) and not seen yet, accumulating seen encodings. -/
def dedupe_encodings : List String → List String → List String
  | _, [] => []
  | seen, enc :: rest =>
    if enc != "" && !(seen.contains enc) then
      enc :: dedupe_encodings (enc :: seen) rest
    else dedupe_encodings seen rest

/-- EncodingResolver part of _search_file: the detected encoding (when
truthy) followed by the fallback list, deduplicated first-wins. -/
def build_encodings (detected : Option String) : List String :=
  let base :=
    match detected with
    | some e => if e != "" then [e] else []
    | none => []
  dedupe_encodings [] (base ++ fallback_encodings)

/-- SearchThread._search_file on one file. -/
def search_file (matcher : String → Bool) (ignore : Option (String → Bool))
    (stopAt : Option Nat) (k : Nat) (fs : FileSpec) (i count : Nat) : FileRes :=
  search_file_encs matcher ignore stopAt k fs (build_encodings fs.detected) i count

/-- The file-filter test of run(): skip when the filter is truthy, its
strip() is truthy, and the stripped filter is not a substring of the base
name.  The flag is read before this test, so a skipped file still
consumes one flag read. -/
def file_filter_skip (fileFilter : String) (fileName : String) : Bool :=
  fileFilter != "" && pyStrip fileFilter != "" && !(strContains (pyStrip fileFilter) fileName)

/-- Result of the per-file loop of run(): events, next flag-read index,
running count, and whether the whole job already terminated via a
cancellation checkpoint (in which case the finished event is in the
trace and nothing further may run). -/
structure WalkRes where
  events : List Event
  reads : Nat
  count : Nat
  stoppedJob : Bool
deriving Repr, DecidableEq

/-- The inner loop of run() over the files of one os.walk entry: per file
read the flag (emitting finished(count, True) and ending the job when it
is False), apply the filename filter, and otherwise search the file. -/
def run_files (matcher : String → Bool) (ignore : Option (String → Bool))
    (stopAt : Option Nat) (k : Nat) (fileFilter : String) :
    List FileSpec → Nat → Nat → WalkRes
  | [], i, count => ⟨[], i, count, false⟩
  | f :: fsRest, i, count =>
    if !(flagAt stopAt i) then ⟨[Event.finished count true], i + 1, count, true⟩
    else if file_filter_skip fileFilter f.name then
      run_files matcher ignore stopAt k fileFilter fsRest (i + 1) count
    else
      let r := search_file matcher ignore stopAt k f (i + 1) count
      let r2 := run_files matcher ignore stopAt k fileFilter fsRest r.reads r.count
      ⟨r.events ++ r2.events, r2.reads, r2.count, r2.stoppedJob⟩

/-- The outer loop of run() over os.walk entries: per entry read the flag
(emitting finished(count, True) when False), then run the entry's files;
after the walk is exhausted emit finished(count, False). -/
def run_roots (matcher : String → Bool) (ignore : Option (String → Bool))
    (stopAt : Option Nat) (k : Nat) (fileFilter : String) :
    List (List FileSpec) → Nat → Nat → List Event
  | [], _, count => [Event.finished count false]
  | files :: roots, i, count =>
    if !(flagAt stopAt i) then [Event.finished count true]
    else
      let r := run_files matcher ignore stopAt k fileFilter files (i + 1) count
      if r.stoppedJob then r.events
      else r.events ++ run_roots matcher ignore stopAt k fileFilter roots r.reads r.count

/-- SearchThread.run: the folder mode walks the tree with cancellation
checkpoints; the single-file mode searches the one target and then emits
finished(count, False) unconditionally — there is no cancellation
checkpoint on that path, so the cancelled flag can never be True. -/
def run_search (matcher : String → Bool) (ignore : Option (String → Bool))
    (stopAt : Option Nat) (k : Nat) (fileFilter : String) (isFolder : Bool)
    (walk : List (List FileSpec)) (target : FileSpec) : List Event :=
  if isFolder then run_roots matcher ignore stopAt k fileFilter walk 0 0
  else
    let r := search_file matcher ignore stopAt k target 0 0
    r.events ++ [Event.finished r.count false]

/-- Event classifiers and counters for stating trace properties. -/
def isProgressEv : Event → Bool
  | .progress _ _ => true
  | _ => false

/-- True exactly on finished events. -/
def isFinishedEv : Event → Bool
  | .finished _ _ => true
  | _ => false

/-- Number of progress events in a trace. -/
def countProgress (es : List Event) : Nat := es.countP isProgressEv

/-- Number of finished events in a trace. -/
def countFinished (es : List Event) : Nat := es.countP isFinishedEv

/-- A file that opens and decodes cleanly under the first candidate
encoding (detection failed, utf-8 reads it fully). -/
def cleanSpec (fs : FileSpec) : Prop :=
  fs.detected = none ∧ ∃ lines, fs.attempt "utf-8" = Attempt.opened lines FileTail.eof

/-- A directory walk all of whose files are clean. -/
def cleanWalk (walk : List (List FileSpec)) : Prop :=
  ∀ files ∈ walk, ∀ f ∈ files, cleanSpec f

/-- A concrete clean file with lines foo, foo used to exercise
cancellation in single-file mode. -/
def demoCleanFile : FileSpec :=
  { name := "a.log", path := "a.log", detected := none,
    attempt := fun e =>
      if e = "utf-8" then Attempt.opened ["foo\n", "foo\n"] FileTail.eof
      else Attempt.openFail true "",
    lossy := Attempt.opened ["foo\n", "foo\n"] FileTail.eof }

/-- A concrete file whose first candidate encoding decodes one line
(containing a match) and then raises UnicodeDecodeError, while the second
candidate decodes all three lines. -/
def retryFileSpec : FileSpec :=
  { name := "a.log", path := "f", detected := none,
    attempt := fun e =>
      if e = "utf-8" then Attempt.opened ["foo\n"] (FileTail.decodeError "bad byte")
      else if e = "gbk" then Attempt.opened ["foo\n", "bar\n", "foo\n"] FileTail.eof
      else Attempt.openFail true "",
    lossy := Attempt.openFail false "unused" }

/-- A concrete clean file with lines foo, bar, foo. -/
def fooBarFooSpec : FileSpec :=
  { name := "a.log", path := "f", detected := none,
    attempt := fun e =>
      if e = "utf-8" then Attempt.opened ["foo\n", "bar\n", "foo\n"] FileTail.eof
      else Attempt.openFail true "",
    lossy := Attempt.openFail false "unused" }

/-- A concrete file whose open fails with a non-decoding I/O error. -/
def deniedFileSpec : FileSpec :=
  { name := "b.log", path := "d/b.log", detected := none,
    attempt := fun _ => Attempt.openFail false "Permission denied",
    lossy := Attempt.openFail false "Permission denied" }

/-- A concrete clean file with a match on its second line. -/
def okFileSpec : FileSpec :=
  { name := "a.log", path := "d/a.log", detected := none,
    attempt := fun e =>
      if e = "utf-8" then Attempt.opened ["x\n", "foo\n"] FileTail.eof
      else Attempt.openFail true "",
    lossy := Attempt.openFail false "unused" }

/-- A concrete file that opens, yields one matching line, and then
raises a non-decoding I/O error during reading. -/
def midReadFailSpec : FileSpec :=
  { name := "c.log", path := "g", detected := none,
    attempt := fun e =>
      if e = "utf-8" then Attempt.opened ["foo\n"] (FileTail.ioError "Disk error")
      else Attempt.openFail true "",
    lossy := Attempt.openFail false "unused" }

/-!  Helper lemmas about the embedding. -/

theorem listPrefix_self_append (l t : List Char) : l.isPrefixOf (l ++ t) = true := by
  induction l with
  | nil => simp [List.isPrefixOf]
  | cons c cs ih => simp [List.isPrefixOf, ih]

theorem listInfix_append (pre l suf : List Char) :
    listInfix l (pre ++ (l ++ suf)) = true := by
  induction pre with
  | nil =>
    simp only [List.nil_append]
    cases h : l ++ suf with
    | nil =>
      have hl : l = [] := by
        rcases List.append_eq_nil.mp h with ⟨h1, _⟩
        exact h1
      subst hl
      simp [listInfix]
    | cons c t =>
      rw [listInfix]
      have : l.isPrefixOf (c :: t) = true := by rw [← h]; exact listPrefix_self_append l suf
      simp [this]
  | cons p ps ih =>
    simp only [List.cons_append, listInfix, List.append_eq, ih, Bool.or_true]

theorem strContains_infix (pre mid suf : String) :
    strContains mid (pre ++ mid ++ suf) = true := by
  have h : (pre ++ mid ++ suf).data = pre.data ++ (mid.data ++ suf.data) := by
    simp [String.data_append, List.append_assoc]
  rw [strContains, h]
  exact listInfix_append pre.data mid.data suf.data

theorem countFinished_of_progress_only (es : List Event)
    (h : ∀ e ∈ es, isProgressEv e = true) : countFinished es = 0 := by
  rw [countFinished, List.countP_eq_zero]
  intro e he
  have := h e he
  cases e <;> simp_all [isProgressEv, isFinishedEv]

theorem countFinished_append (a b : List Event) :
    countFinished (a ++ b) = countFinished a + countFinished b :=
  List.countP_append isFinishedEv a b

theorem countProgress_append (a b : List Event) :
    countProgress (a ++ b) = countProgress a + countProgress b :=
  List.countP_append isProgressEv a b

theorem search_normal_spec (m : String → Bool) (ig : Option (String → Bool))
    (st : Option Nat) (p : String) :
    ∀ (lines : List String) (tail : FileTail) (lineNo i c : Nat),
      (∀ e ∈ (search_normal m ig st p lines tail lineNo i c).events, isProgressEv e = true)
      ∧ (search_normal m ig st p lines tail lineNo i c).count
        = c + countProgress (search_normal m ig st p lines tail lineNo i c).events := by
  intro lines
  induction lines with
  | nil =>
    intro tail lineNo i c
    cases tail <;> simp [search_normal, countProgress, countFinished]
  | cons line rest ih =>
    intro tail lineNo i c
    by_cases hf : flagAt st i = true
    · by_cases hi : should_ignore ig line = true
      · simpa [search_normal, hf, hi] using ih tail (lineNo + 1) (i + 1) c
      · by_cases hm : m line = true
        · obtain ⟨ih1, ih2⟩ := ih tail (lineNo + 1) (i + 1) (c + 1)
          simp only [search_normal, hf, hi, hm]
          simp only [Bool.not_true, Bool.false_eq_true, if_false, if_true]
          constructor
          · intro e he
            rcases List.mem_cons.mp he with h | h
            · subst h; rfl
            · exact ih1 e h
          · simp only [countProgress, List.countP_cons, ih2]
            simp [isProgressEv, countProgress]
            omega
        · simpa [search_normal, hf, hi, hm] using ih tail (lineNo + 1) (i + 1) c
    · simp [search_normal, hf, countProgress]

theorem search_normal_eof (m : String → Bool) (ig : Option (String → Bool))
    (st : Option Nat) (p : String) :
    ∀ (lines : List String) (lineNo i c : Nat),
      (search_normal m ig st p lines FileTail.eof lineNo i c).outcome = ScanExit.completed
      ∨ (search_normal m ig st p lines FileTail.eof lineNo i c).outcome = ScanExit.stopped := by
  intro lines
  induction lines with
  | nil => intro lineNo i c; simp [search_normal]
  | cons line rest ih =>
    intro lineNo i c
    by_cases hf : flagAt st i = true
    · by_cases hi : should_ignore ig line = true
      · simpa [search_normal, hf, hi] using ih (lineNo + 1) (i + 1) c
      · by_cases hm : m line = true
        · simpa [search_normal, hf, hi, hm] using ih (lineNo + 1) (i + 1) (c + 1)
        · simpa [search_normal, hf, hi, hm] using ih (lineNo + 1) (i + 1) c
    · simp [search_normal, hf]

theorem collect_future_eof (ig : Option (String → Bool)) (k lineNo : Nat) :
    ∀ (rem : List String) (collected : Nat),
      (collect_future ig k lineNo collected rem FileTail.eof).2.2 = FutureExit.ok := by
  intro rem
  induction rem with
  | nil => intro collected; by_cases h : collected ≥ k <;> simp [collect_future, h]
  | cons l ls ih =>
    intro collected
    by_cases h : collected ≥ k
    · simp [collect_future, h]
    · by_cases hi : should_ignore ig l = true <;>
        simp [collect_future, h, hi, ih]

theorem search_with_context_spec (m : String → Bool) (ig : Option (String → Bool))
    (st : Option Nat) (k : Nat) (p : String) :
    ∀ (n : Nat) (lines : List String), lines.length ≤ n →
    ∀ (tail : FileTail) (ec : Nat) (buf : List (Nat × String)) (i c : Nat),
      (∀ e ∈ (search_with_context m ig st k p lines tail ec buf i c).events,
        isProgressEv e = true)
      ∧ (search_with_context m ig st k p lines tail ec buf i c).count
        = c + countProgress (search_with_context m ig st k p lines tail ec buf i c).events := by
  intro n
  induction n with
  | zero =>
    intro lines hlen tail ec buf i c
    have hnil : lines = [] := List.eq_nil_of_length_eq_zero (Nat.le_zero.mp hlen)
    subst hnil
    cases tail <;> simp [search_with_context, countProgress]
  | succ n ih =>
    intro lines hlen tail ec buf i c
    match lines with
    | [] => cases tail <;> simp [search_with_context, countProgress]
    | line :: rest =>
      have hrest : rest.length ≤ n := by
        simp only [List.length_cons] at hlen; omega
      by_cases hf : flagAt st i = true
      · by_cases hi : should_ignore ig line = true
        · simpa [search_with_context, hf, hi] using
            ih rest hrest tail (ec + 1) buf (i + 1) c
        · by_cases hm : m line = true
          · rcases hfe : (collect_future ig k (ec + 1) 0 rest tail).2.2 with _ | msg | msg
            · have hdrop : (rest.drop (collect_future ig k (ec + 1) 0 rest tail).2.1).length ≤ n := by
                have := List.length_drop (collect_future ig k (ec + 1) 0 rest tail).2.1 rest
                omega
              obtain ⟨ih1, ih2⟩ := ih (rest.drop (collect_future ig k (ec + 1) 0 rest tail).2.1)
                hdrop tail (ec + 1) (pushBuf k buf (ec + 1, line)) (i + 1) (c + 1)
              simp only [search_with_context, hf, hi, hm, hfe]
              simp only [Bool.not_true, Bool.false_eq_true, if_false, if_true]
              constructor
              · intro e he
                rcases List.mem_cons.mp he with h | h
                · subst h; rfl
                · exact ih1 e h
              · simp only [countProgress, List.countP_cons] at ih2 ⊢
                simp [isProgressEv] at ih2 ⊢
                omega
            · simp [search_with_context, hf, hi, hm, hfe, countProgress]
            · simp [search_with_context, hf, hi, hm, hfe, countProgress]
          · simpa [search_with_context, hf, hi, hm] using
              ih rest hrest tail (ec + 1) (pushBuf k buf (ec + 1, line)) (i + 1) c
      · simp [search_with_context, hf, countProgress]

theorem search_with_context_eof (m : String → Bool) (ig : Option (String → Bool))
    (st : Option Nat) (k : Nat) (p : String) :
    ∀ (n : Nat) (lines : List String), lines.length ≤ n →
    ∀ (ec : Nat) (buf : List (Nat × String)) (i c : Nat),
      (search_with_context m ig st k p lines FileTail.eof ec buf i c).outcome
        = ScanExit.completed
      ∨ (search_with_context m ig st k p lines FileTail.eof ec buf i c).outcome
        = ScanExit.stopped := by
  intro n
  induction n with
  | zero =>
    intro lines hlen ec buf i c
    have hnil : lines = [] := List.eq_nil_of_length_eq_zero (Nat.le_zero.mp hlen)
    subst hnil
    simp [search_with_context]
  | succ n ih =>
    intro lines hlen ec buf i c
    match lines with
    | [] => simp [search_with_context]
    | line :: rest =>
      have hrest : rest.length ≤ n := by
        simp only [List.length_cons] at hlen; omega
      by_cases hf : flagAt st i = true
      · by_cases hi : should_ignore ig line = true
        · simpa [search_with_context, hf, hi] using
            ih rest hrest (ec + 1) buf (i + 1) c
        · by_cases hm : m line = true
          · have hfe : (collect_future ig k (ec + 1) 0 rest FileTail.eof).2.2
                = FutureExit.ok := collect_future_eof ig k (ec + 1) rest 0
            have hdrop : (rest.drop (collect_future ig k (ec + 1) 0 rest FileTail.eof).2.1).length ≤ n := by
              have := List.length_drop (collect_future ig k (ec + 1) 0 rest FileTail.eof).2.1 rest
              omega
            simpa [search_with_context, hf, hi, hm, hfe] using
              ih (rest.drop (collect_future ig k (ec + 1) 0 rest FileTail.eof).2.1)
                hdrop (ec + 1) (pushBuf k buf (ec + 1, line)) (i + 1) (c + 1)
          · simpa [search_with_context, hf, hi, hm] using
              ih rest hrest (ec + 1) (pushBuf k buf (ec + 1, line)) (i + 1) c
      · simp [search_with_context, hf]


theorem scan_open_spec (m : String → Bool) (ig : Option (String → Bool))
    (st : Option Nat) (k : Nat) (p : String) (lines : List String)
    (tail : FileTail) (i c : Nat) :
    (∀ e ∈ (scan_open m ig st k p lines tail i c).events, isProgressEv e = true)
    ∧ (scan_open m ig st k p lines tail i c).count
      = c + countProgress (scan_open m ig st k p lines tail i c).events := by
  unfold scan_open
  by_cases hk : k > 0
  · simp only [hk, if_true]
    exact search_with_context_spec m ig st k p lines.length lines le_rfl tail 0 [] i c
  · simp only [hk, if_false]
    exact search_normal_spec m ig st p lines tail 1 i c

theorem scan_open_eof (m : String → Bool) (ig : Option (String → Bool))
    (st : Option Nat) (k : Nat) (p : String) (lines : List String) (i c : Nat) :
    (scan_open m ig st k p lines FileTail.eof i c).outcome = ScanExit.completed
    ∨ (scan_open m ig st k p lines FileTail.eof i c).outcome = ScanExit.stopped := by
  unfold scan_open
  by_cases hk : k > 0
  · simp only [hk, if_true]
    exact search_with_context_eof m ig st k p lines.length lines le_rfl 0 [] i c
  · simp only [hk, if_false]
    exact search_normal_eof m ig st p lines 1 i c

theorem countFinished_error (s : String) : countFinished [Event.error s] = 0 := by
  simp [countFinished, List.countP_cons, isFinishedEv]

theorem search_file_encs_no_finished (m : String → Bool) (ig : Option (String → Bool))
    (st : Option Nat) (k : Nat) (fs : FileSpec) :
    ∀ (encs : List String) (i c : Nat),
      countFinished (search_file_encs m ig st k fs encs i c).events = 0 := by
  intro encs
  induction encs with
  | nil =>
    intro i c
    cases hl : fs.lossy with
    | openFail d msg =>
      simp only [search_file_encs, hl]
      exact countFinished_error _
    | opened lines tail =>
      have hs := scan_open_spec m ig st k fs.path lines tail i c
      have h0 := countFinished_of_progress_only _ hs.1
      cases ho : (scan_open m ig st k fs.path lines tail i c).outcome <;>
        simp only [search_file_encs, hl, ho] <;>
        simp [countFinished_append, h0, countFinished_error]
  | cons enc rest ih =>
    intro i c
    cases ha : fs.attempt enc with
    | openFail d msg =>
      cases d
      · simp only [search_file_encs, ha]
        exact countFinished_error _
      · simp only [search_file_encs, ha]
        exact ih i c
    | opened lines tail =>
      have hs := scan_open_spec m ig st k fs.path lines tail i c
      have h0 := countFinished_of_progress_only _ hs.1
      cases ho : (scan_open m ig st k fs.path lines tail i c).outcome <;>
        simp only [search_file_encs, ha, ho] <;>
        simp [countFinished_append, h0, countFinished_error, ih]

theorem search_file_no_finished (m : String → Bool) (ig : Option (String → Bool))
    (st : Option Nat) (k : Nat) (fs : FileSpec) (i c : Nat) :
    countFinished (search_file m ig st k fs i c).events = 0 :=
  search_file_encs_no_finished m ig st k fs (build_encodings fs.detected) i c

theorem search_file_clean (m : String → Bool) (ig : Option (String → Bool))
    (st : Option Nat) (k : Nat) (fs : FileSpec) (h : cleanSpec fs) (i c : Nat) :
    (search_file m ig st k fs i c).count
      = c + countProgress (search_file m ig st k fs i c).events := by
  obtain ⟨hdet, lines, hatt⟩ := h
  unfold search_file
  rw [hdet]
  have henc : build_encodings none = "utf-8" :: ["gbk", "gb2312", "gb18030"] := by decide
  rw [henc]
  have hs := scan_open_spec m ig st k fs.path lines FileTail.eof i c
  rcases scan_open_eof m ig st k fs.path lines i c with ho | ho <;>
    simp [search_file_encs, hatt, ho, hs.2]

theorem run_files_spec (m : String → Bool) (ig : Option (String → Bool))
    (st : Option Nat) (k : Nat) (fl : String) :
    ∀ (files : List FileSpec) (i c : Nat),
      ((run_files m ig st k fl files i c).stoppedJob = true →
        ∃ pre, (run_files m ig st k fl files i c).events
            = pre ++ [Event.finished (run_files m ig st k fl files i c).count true]
          ∧ countFinished pre = 0)
      ∧ ((run_files m ig st k fl files i c).stoppedJob = false →
        countFinished (run_files m ig st k fl files i c).events = 0)
      ∧ ((∀ f ∈ files, cleanSpec f) →
        (run_files m ig st k fl files i c).count
          = c + countProgress (run_files m ig st k fl files i c).events) := by
  intro files
  induction files with
  | nil =>
    intro i c
    refine ⟨?_, ?_, ?_⟩
    · intro h; simp [run_files] at h
    · intro _; simp [run_files, countFinished]
    · intro _; simp [run_files, countProgress]
  | cons f rest ih =>
    intro i c
    by_cases hf : flagAt st i = true
    · by_cases hsk : file_filter_skip fl f.name = true
      · obtain ⟨ih1, ih2, ih3⟩ := ih (i + 1) c
        refine ⟨?_, ?_, ?_⟩
        · intro h
          simp only [run_files, hf, hsk, Bool.not_true, Bool.false_eq_true, if_false,
            if_true] at h ⊢
          exact ih1 h
        · intro h
          simp only [run_files, hf, hsk, Bool.not_true, Bool.false_eq_true, if_false,
            if_true] at h ⊢
          exact ih2 h
        · intro hcl
          simp only [run_files, hf, hsk, Bool.not_true, Bool.false_eq_true, if_false,
            if_true]
          exact ih3 (fun g hg => hcl g (List.mem_cons_of_mem f hg))
      · obtain ⟨ih1, ih2, ih3⟩ :=
          ih (search_file m ig st k f (i + 1) c).reads (search_file m ig st k f (i + 1) c).count
        have hnf := search_file_no_finished m ig st k f (i + 1) c
        refine ⟨?_, ?_, ?_⟩
        · intro h
          simp only [run_files, hf, hsk, Bool.not_true, Bool.false_eq_true, if_false,
            if_true] at h ⊢
          obtain ⟨pre2, hpre2, hcf2⟩ := ih1 h
          refine ⟨(search_file m ig st k f (i + 1) c).events ++ pre2, ?_, ?_⟩
          · rw [hpre2, List.append_assoc]
          · rw [countFinished_append, hnf, hcf2]
        · intro h
          simp only [run_files, hf, hsk, Bool.not_true, Bool.false_eq_true, if_false,
            if_true] at h ⊢
          rw [countFinished_append, hnf, ih2 h]
        · intro hcl
          simp only [run_files, hf, hsk, Bool.not_true, Bool.false_eq_true, if_false,
            if_true]
          have hcf : cleanSpec f := hcl f (List.mem_cons_self f rest)
          have h1 := search_file_clean m ig st k f hcf (i + 1) c
          have h3 := ih3 (fun g hg => hcl g (List.mem_cons_of_mem f hg))
          rw [countProgress_append, h3, h1]
          omega
    · refine ⟨?_, ?_, ?_⟩
      · intro _
        refine ⟨[], ?_, rfl⟩
        simp [run_files, hf]
      · intro h
        simp [run_files, hf] at h
      · intro _
        simp [run_files, hf, countProgress, List.countP_cons, isProgressEv]

theorem run_roots_spec (m : String → Bool) (ig : Option (String → Bool))
    (st : Option Nat) (k : Nat) (fl : String) :
    ∀ (walk : List (List FileSpec)) (i c : Nat),
      ∃ pre n b, run_roots m ig st k fl walk i c = pre ++ [Event.finished n b]
        ∧ countFinished pre = 0
        ∧ (cleanWalk walk → n = c + countProgress pre) := by
  intro walk
  induction walk with
  | nil =>
    intro i c
    exact ⟨[], c, false, rfl, rfl, fun _ => by simp [countProgress]⟩
  | cons files roots ih =>
    intro i c
    by_cases hf : flagAt st i = true
    · obtain ⟨rf1, rf2, rf3⟩ := run_files_spec m ig st k fl files (i + 1) c
      cases hstop : (run_files m ig st k fl files (i + 1) c).stoppedJob
      · obtain ⟨pre2, n, b, hpre2, hcf2, hcl2⟩ :=
          ih (run_files m ig st k fl files (i + 1) c).reads
            (run_files m ig st k fl files (i + 1) c).count
        refine ⟨(run_files m ig st k fl files (i + 1) c).events ++ pre2, n, b, ?_, ?_, ?_⟩
        · simp only [run_roots, hf, Bool.not_true, Bool.false_eq_true, if_false, if_true,
            hstop]
          rw [hpre2, List.append_assoc]
        · rw [countFinished_append, rf2 hstop, hcf2]
        · intro hcw
          have hfiles : ∀ f ∈ files, cleanSpec f :=
            fun f hgf => hcw files (List.mem_cons_self files roots) f hgf
          have hroots : cleanWalk roots :=
            fun gs hgs g hg => hcw gs (List.mem_cons_of_mem files hgs) g hg
          rw [countProgress_append, hcl2 hroots, rf3 hfiles]
          omega
      · obtain ⟨pre1, hpre1, hcf1⟩ := rf1 hstop
        refine ⟨pre1, (run_files m ig st k fl files (i + 1) c).count, true, ?_, hcf1, ?_⟩
        · simp only [run_roots, hf, Bool.not_true, Bool.false_eq_true, if_false, if_true,
            hstop]
          exact hpre1
        · intro hcw
          have hfiles : ∀ f ∈ files, cleanSpec f :=
            fun f hgf => hcw files (List.mem_cons_self files roots) f hgf
          have := rf3 hfiles
          rw [hpre1] at this
          rw [this, countProgress_append]
          simp [countProgress, List.countP_cons, isProgressEv]
    · refine ⟨[], c, true, ?_, rfl, fun _ => by simp [countProgress]⟩
      simp [run_roots, hf]

theorem search_normal_matches (m : String → Bool) (ig : Option (String → Bool))
    (p : String) (tail : FileTail) :
    ∀ (lines : List String) (lineNo i c : Nat),
      countProgress (search_normal m ig none p lines tail lineNo i c).events
        = lines.countP (fun l => !(should_ignore ig l) && m l) := by
  intro lines
  induction lines with
  | nil =>
    intro lineNo i c
    cases tail <;> simp [search_normal, countProgress]
  | cons line rest ih =>
    intro lineNo i c
    have hf : flagAt none i = true := rfl
    by_cases hi : should_ignore ig line = true
    · simp [search_normal, hf, hi, List.countP_cons, ih (lineNo + 1) (i + 1) c]
    · by_cases hm : m line = true
      · simp only [search_normal, hf, hi, hm, Bool.not_true, Bool.false_eq_true,
          if_false, if_true]
        simp only [countProgress, List.countP_cons] at ih ⊢
        simp [isProgressEv, hi, hm, ih (lineNo + 1) (i + 1) (c + 1)]
      · simp only [search_normal, hf, hi, hm, Bool.not_true, Bool.false_eq_true,
          if_false, if_true]
        simp only [countProgress, List.countP_cons] at ih ⊢
        simp [isProgressEv, hi, hm, ih (lineNo + 1) (i + 1) c]

theorem dedupe_not_mem_seen :
    ∀ (rest seen : List String) (x : String),
      x ∈ dedupe_encodings seen rest → x ∉ seen := by
  intro rest
  induction rest with
  | nil => intro seen x hx; simp [dedupe_encodings] at hx
  | cons enc rest ih =>
    intro seen x hx
    by_cases hg : (enc != "" && !(seen.contains enc)) = true
    · rw [dedupe_encodings, if_pos hg] at hx
      rcases List.mem_cons.mp hx with h | h
      · subst h
        intro hmem
        have hc := List.elem_eq_true_of_mem hmem
        simp [List.contains, hc] at hg
        exact hg.2 hmem
      · have := ih (enc :: seen) x h
        exact fun hmem => this (List.mem_cons_of_mem enc hmem)
    · rw [dedupe_encodings, if_neg hg] at hx
      exact ih seen x hx

theorem dedupe_nodup : ∀ (rest seen : List String), (dedupe_encodings seen rest).Nodup := by
  intro rest
  induction rest with
  | nil => intro seen; simp [dedupe_encodings]
  | cons enc rest ih =>
    intro seen
    by_cases hg : (enc != "" && !(seen.contains enc)) = true
    · rw [dedupe_encodings, if_pos hg]
      refine List.nodup_cons.mpr ⟨?_, ih (enc :: seen)⟩
      intro hmem
      exact dedupe_not_mem_seen rest (enc :: seen) enc hmem (List.mem_cons_self enc seen)
    · rw [dedupe_encodings, if_neg hg]
      exact ih seen

theorem dedupe_of_nodup :
    ∀ (rest seen : List String), rest.Nodup → (∀ e ∈ rest, e ≠ "") →
      dedupe_encodings seen rest = rest.filter (fun e => !(seen.contains e)) := by
  intro rest
  induction rest with
  | nil => intro seen _ _; simp [dedupe_encodings]
  | cons enc rest ih =>
    intro seen hnd hne
    have henc : (enc != "") = true := by
      have := hne enc (List.mem_cons_self enc rest)
      simpa using this
    obtain ⟨hout, hnd2⟩ := List.nodup_cons.mp hnd
    have hne2 : ∀ e ∈ rest, e ≠ "" := fun e he => hne e (List.mem_cons_of_mem enc he)
    by_cases hc : seen.contains enc = true
    · rw [dedupe_encodings, if_neg (by rw [hc]; simp), List.filter_cons,
        if_neg (by rw [hc]; simp)]
      exact ih seen hnd2 hne2
    · have hc' : seen.contains enc = false := by simpa using hc
      rw [dedupe_encodings, if_pos (by rw [hc']; simp [henc]), List.filter_cons,
        if_pos (by rw [hc']; simp)]
      rw [ih (enc :: seen) hnd2 hne2]
      congr 1
      apply List.filter_congr
      intro e he
      have hee : (e == enc) = false := by
        have : e ≠ enc := fun h => hout (h ▸ he)
        simp [this]
      simp only [List.contains, List.elem_cons, hee]

/-!  Claim theorems. -/

/-- C4 (amended): in plain (non-logical) mode an empty rawExpression
compiles to an always-TRUE predicate, because Python's substring operator
holds for the empty string on every line; the claimed never-match
behaviour does not hold (callers are expected to validate non-emptiness,
as the UI does before starting a job). -/
theorem C4_empty_plain_always_true : ∀ text : String, mkMatcher "" false text = true := by
  intro text
  show strContains "" text = true
  cases h : text.data <;> simp [strContains, listInfix, List.isPrefixOf, h]

/-- C4 counterexample: the plain-mode matcher compiled from the empty
expression returns true on the line abc, where the claim requires
false. -/
theorem C4_empty_plain_counterexample : mkMatcher "" false "abc" = true := by decide

/-- C10: an ignoreExpression that is empty or whitespace-only yields no
ignore matcher (mkIgnoreMatcher returns none), _should_ignore is then
false on every line, and both scanning modes behave exactly as with no
ignore matcher — no line is ever skipped as ignored. -/
theorem C10_blank_ignore_inert : ∀ (s : String) (b : Bool), pyStrip s = "" →
    mkIgnoreMatcher s b = none
    ∧ (∀ line, should_ignore (mkIgnoreMatcher s b) line = false)
    ∧ (∀ (m : String → Bool) (st : Option Nat) (p : String) (lines : List String)
        (tail : FileTail) (lineNo i c : Nat),
        search_normal m (mkIgnoreMatcher s b) st p lines tail lineNo i c
          = search_normal m none st p lines tail lineNo i c)
    ∧ (∀ (m : String → Bool) (st : Option Nat) (k : Nat) (p : String)
        (lines : List String) (tail : FileTail) (ec : Nat)
        (buf : List (Nat × String)) (i c : Nat),
        search_with_context m (mkIgnoreMatcher s b) st k p lines tail ec buf i c
          = search_with_context m none st k p lines tail ec buf i c) := by
  intro s b hs
  have h0 : mkIgnoreMatcher s b = none := by
    unfold mkIgnoreMatcher
    rw [hs]
    simp
  exact ⟨h0, fun line => by rw [h0]; rfl,
    fun m st p lines tail lineNo i c => by rw [h0],
    fun m st k p lines tail ec buf i c => by rw [h0]⟩

/-- C10 witness: the two-space ignore expression builds no ignore matcher
and ignores no line. -/
theorem C10_blank_ignore_inert_witness :
    pyStrip "  " = "" ∧ mkIgnoreMatcher "  " false = none
    ∧ should_ignore (mkIgnoreMatcher "  " false) "any line" = false := by
  have h := C10_blank_ignore_inert "  " false (by decide)
  exact ⟨by decide, h.1, h.2.1 "any line"⟩

/-- C8: the candidate-encoding list is always non-empty and
duplicate-free; with no detection result it is exactly the fixed fallback
list utf-8, gbk, gb2312, gb18030 (in particular after an I/O error while
sniffing); a truthy detected encoding comes first, followed by the
fallback encodings with the first occurrence winning. -/
theorem C8_encoding_candidates :
    (∀ d : Option String, build_encodings d ≠ [] ∧ (build_encodings d).Nodup)
    ∧ build_encodings none = fallback_encodings
    ∧ (∀ s : String, s ≠ "" →
        build_encodings (some s) = s :: fallback_encodings.filter (fun e => e != s)) := by
  have hchar : ∀ s : String, s ≠ "" →
      build_encodings (some s) = s :: fallback_encodings.filter (fun e => e != s) := by
    intro s hs
    have hs' : (s != "") = true := by simp [hs]
    show dedupe_encodings [] ((if s != "" then [s] else []) ++ fallback_encodings)
      = s :: fallback_encodings.filter (fun e => e != s)
    rw [if_pos hs']
    show dedupe_encodings [] (s :: fallback_encodings) = _
    rw [dedupe_encodings, if_pos (by simp [hs', List.contains])]
    congr 1
    rw [dedupe_of_nodup fallback_encodings [s] (by decide) (by decide)]
    apply List.filter_congr
    intro e _
    by_cases h : e = s <;> simp [List.contains, List.elem_cons, bne, h]
  refine ⟨?_, by decide, hchar⟩
  intro d
  refine ⟨?_, ?_⟩
  · cases d with
    | none => decide
    | some s =>
      by_cases hs : s = ""
      · subst hs; decide
      · rw [hchar s hs]
        exact List.cons_ne_nil s _
  · show (dedupe_encodings [] _).Nodup
    exact dedupe_nodup _ []

/-- C8 witness: a detected encoding distinct from the fallback set is
placed first and the fallback set follows unchanged. -/
theorem C8_encoding_candidates_witness :
    build_encodings (some "latin-1")
      = "latin-1" :: fallback_encodings.filter (fun e => e != "latin-1") :=
  C8_encoding_candidates.2.2 "latin-1" (by decide)

/-- C2 counterexample: in single-file mode, stop() observed during the
scan (flag read 1 returns False, after one record was emitted) still
yields a JobOutcome with cancelled = false — the claim requires
cancelled = true in single-file mode as well. -/
theorem C2_single_file_cancel_counterexample :
    run_search (mkMatcher "foo" false) none (some 1) 0 "" false [] demoCleanFile
      = [Event.progress "a.log (line 1): foo\n" 1, Event.finished 1 false] := by decide

/-- C2 (amended): every run emits exactly one JobOutcome and it is the
final event (no ResultRecord follows it); over a walk of cleanly-decoding
files the outcome's count equals the number of ResultRecords emitted; the
cancelled flag is reported true only by the folder-mode checkpoints
(before a walk entry or before a file) — a stop observed before any work
in folder mode gives finished(0, true), while single-file mode
unconditionally reports cancelled = false. -/
theorem C2_cancellation_outcome :
    ∀ (m : String → Bool) (ig : Option (String → Bool)) (st : Option Nat) (k : Nat)
      (fl : String) (walk : List (List FileSpec)) (target : FileSpec),
      (∃ pre n b, run_search m ig st k fl true walk target = pre ++ [Event.finished n b]
        ∧ countFinished pre = 0
        ∧ (cleanWalk walk → n = countProgress pre))
      ∧ (∃ pre n, run_search m ig st k fl false walk target = pre ++ [Event.finished n false]
        ∧ countFinished pre = 0
        ∧ (cleanSpec target → n = countProgress pre))
      ∧ (st = some 0 → walk ≠ [] → run_search m ig st k fl true walk target
          = [Event.finished 0 true]) := by
  intro m ig st k fl walk target
  refine ⟨?_, ?_, ?_⟩
  · obtain ⟨pre, n, b, h1, h2, h3⟩ := run_roots_spec m ig st k fl walk 0 0
    refine ⟨pre, n, b, ?_, h2, ?_⟩
    · simpa [run_search] using h1
    · intro hc
      have := h3 hc
      omega
  · refine ⟨(search_file m ig st k target 0 0).events,
      (search_file m ig st k target 0 0).count, ?_, ?_, ?_⟩
    · simp [run_search]
    · exact search_file_no_finished m ig st k target 0 0
    · intro hct
      have := search_file_clean m ig st k target hct 0 0
      omega
  · intro hst hw
    match walk with
    | [] => exact absurd rfl hw
    | files :: roots =>
      subst hst
      simp [run_search, run_roots, flagAt]

/-- C2 witness: a one-file clean walk, stopped before any work, yields
exactly the terminal finished(0, true) event. -/
theorem C2_cancellation_outcome_witness :
    cleanWalk [[okFileSpec]]
    ∧ run_search (mkMatcher "foo" false) none (some 0) 0 "" true [[okFileSpec]] okFileSpec
      = [Event.finished 0 true] := by
  refine ⟨?_, (C2_cancellation_outcome (mkMatcher "foo" false) none (some 0) 0 ""
    [[okFileSpec]] okFileSpec).2.2 rfl (by simp)⟩
  intro files hf f hg
  have hfe : files = [okFileSpec] := by simpa using hf
  subst hfe
  have hfo : f = okFileSpec := by simpa using hg
  subst hfo
  exact ⟨rfl, ["x\n", "foo\n"], rfl⟩

/-- C5 counterexample: when the first candidate encoding decodes one
matching line and then raises a decode error, the record for that line is
emitted again by the rescan under the next candidate — it appears twice
in the trace, where the claim requires every record at most once. -/
theorem C5_duplicate_emission_counterexample :
    ((search_file (mkMatcher "foo" false) none none 0 retryFileSpec 0 0).events.count
      (Event.progress "f (line 1): foo\n" 1)) = 2 := by decide

/-- C5 (amended): on a file whose first candidate encoding decodes
cleanly, each matching non-ignored line yields exactly one record —
lines foo, bar, foo with contextLines = 0 give exactly the two records at
lines 1 and 3, in order — and in general an uncancelled normal-mode scan
emits exactly one record per non-ignored matching line; but records
emitted before a mid-scan decode error stand, and their lines are
re-emitted when the file is rescanned under the next candidate
encoding. -/
theorem C5_match_emission :
    (search_file (mkMatcher "foo" false) none none 0 fooBarFooSpec 0 0).events
      = [Event.progress "f (line 1): foo\n" 1, Event.progress "f (line 3): foo\n" 2]
    ∧ (∀ (m : String → Bool) (ig : Option (String → Bool)) (p : String)
        (lines : List String) (tail : FileTail) (lineNo i c : Nat),
        countProgress (search_normal m ig none p lines tail lineNo i c).events
          = lines.countP (fun l => !(should_ignore ig l) && m l)) :=
  ⟨by decide, fun m ig p lines tail lineNo i c =>
    search_normal_matches m ig p tail lines lineNo i c⟩

/-- C9: a non-decoding I/O failure at open emits exactly one
search_error event (whose text carries the file path and the error
detail), scanning of that file stops with the running count unchanged,
and folder mode continues with the next file and still emits its
terminal finished event — shown concretely by a walk of a
permission-denied file followed by a clean file; an I/O failure during
reading likewise stops that file's scan after one error event and
returns the original count. -/
theorem C9_file_error_isolation :
    (∀ (m : String → Bool) (ig : Option (String → Bool)) (st : Option Nat) (k : Nat)
      (nm p msg : String) (lossyA : Attempt) (i c : Nat),
      search_file m ig st k
        { name := nm, path := p, detected := none,
          attempt := fun _ => Attempt.openFail false msg, lossy := lossyA } i c
        = ⟨[Event.error (error_text p msg)], i, c⟩)
    ∧ (∀ p msg : String, strContains p (error_text p msg) = true
        ∧ strContains msg (error_text p msg) = true)
    ∧ run_search (mkMatcher "foo" false) none none 0 "" true [[deniedFileSpec, okFileSpec]]
        deniedFileSpec
      = [Event.error (error_text "d/b.log" "Permission denied"),
         Event.progress "d/a.log (line 2): foo\n" 1, Event.finished 1 false]
    ∧ search_file (mkMatcher "foo" false) none none 0 midReadFailSpec 0 0
      = ⟨[Event.progress "g (line 1): foo\n" 1, Event.error (error_text "g" "Disk error")],
         1, 0⟩ := by
  refine ⟨?_, ?_, by decide, by decide⟩
  · intro m ig st k nm p msg lossyA i c
    rfl
  · intro p msg
    constructor
    · rw [strContains, error_text]
      have hdata : ("无法读取文件: " ++ p ++ "\n错误: " ++ msg).data
          = "无法读取文件: ".data ++ (p.data ++ ("\n错误: ".data ++ msg.data)) := by
        simp [String.data_append, List.append_assoc]
      rw [hdata]
      exact listInfix_append _ _ _
    · rw [strContains, error_text]
      have hdata : ("无法读取文件: " ++ p ++ "\n错误: " ++ msg).data
          = ("无法读取文件: ".data ++ p.data ++ "\n错误: ".data) ++ (msg.data ++ []) := by
        simp [String.data_append, List.append_assoc]
      rw [hdata]
      exact listInfix_append _ _ _

set_option maxHeartbeats 2000000
set_option maxRecDepth 10000

/-- C1 (code bug): with contextLines = 1 on the file a, MATCH, b and
keyword MATCH, exactly one block is emitted; it contains the following
line ("  3: b") but NOT the preceding line a — the deque has
maxlen = contextLines and the matched line itself is appended before
rendering, so at most contextLines - 1 preceding lines can survive,
contradicting the claim (and the spec's own acceptance test) that the
block contains line a as preceding context. -/
theorem C1_context_loses_previous_line :
    (search_with_context (mkMatcher "MATCH" false) none none 1 "f"
        ["a\n", "MATCH\n", "b"] FileTail.eof 0 [] 0 0).events
      = [Event.progress (String.intercalate "\n"
          [rule80, "f (line 2):", "> 2: MATCH", "  3: b", rule80 ++ "\n"]) 1]
    ∧ strContains "a" (String.intercalate "\n"
        [rule80, "f (line 2):", "> 2: MATCH", "  3: b", rule80 ++ "\n"]) = false
    ∧ strContains "  3: b" (String.intercalate "\n"
        [rule80, "f (line 2):", "> 2: MATCH", "  3: b", rule80 ++ "\n"]) = true := by
  refine ⟨?_, by decide, by decide⟩
  simp +decide [search_with_context, collect_future, pushBuf, should_ignore, mkMatcher,
    flagAt]

/-- C3 (code bug): with contextLines = 1, keyword M, and the file
M1, x, M2, the first match's look-ahead consumes line x from the stream
without advancing enumerate's counter, so the second match — truly at
line 3 — is reported as "(line 2)": emitted records do not always carry
the true 1-based position of the matched line. -/
theorem C3_lineno_after_lookahead :
    (search_with_context (mkMatcher "M" false) none none 1 "f"
        ["M1\n", "x\n", "M2\n"] FileTail.eof 0 [] 0 0).events
      = [Event.progress (String.intercalate "\n"
            [rule80, "f (line 1):", "> 1: M1", "  2: x", rule80 ++ "\n"]) 1,
         Event.progress (String.intercalate "\n"
            [rule80, "f (line 2):", "> 2: M2", rule80 ++ "\n"]) 2]
    ∧ strContains "(line 3)" (String.intercalate "\n"
        [rule80, "f (line 2):", "> 2: M2", rule80 ++ "\n"]) = false := by
  refine ⟨?_, by decide⟩
  simp +decide [search_with_context, collect_future, pushBuf, should_ignore, mkMatcher,
    flagAt]

/-- C6 (code bug): the logical-mode predicate compiled from not("A") is
constantly false — on a line not containing A (where the claim and the
UI tooltip require true) as well as on a line containing A.  The cause
is traced explicitly: the preprocessing substitution replaces the whole
token not( by a bare exclamation mark, dropping the parenthesis, so the
converter's !(...) patterns never fire and the final Python expression
!("A" in text)) is a SyntaxError, swallowed into False. -/
theorem C6_not_operator_constant_false :
    mkMatcher "not(\"A\")" true "hello" = false
    ∧ mkMatcher "not(\"A\")" true "xAx" = false
    ∧ preprocess (pyStrip "not(\"A\")").data = "!\"A\")".data
    ∧ convert_to_python (preprocess (pyStrip "not(\"A\")").data)
      = "!(\"A\" in text))".data := by
  refine ⟨?_, ?_, ?_, ?_⟩ <;>
    simp +decide [mkMatcher, logicalPredicate, preprocess, convert_to_python, subAnd,
      subOr, subNotParen, skipSpacesParen, reSub, tryBangQuote, tryBangAny, tryQuote,
      tokenize, pyParseExpr, parseL, pyEvalAst, pyStrip]

/-- C7 counterexample: the malformed expression consisting of the bare
unquoted token text (an unknown token, not a quoted literal) compiles to
a predicate that is TRUE on the non-empty line abc — eval evaluates the
identifier text to the line itself and its truthiness is taken — where
the claim requires false on every input. -/
theorem C7_valid_python_counterexample : mkMatcher "text" true "abc" = true := by
  simp +decide [mkMatcher, logicalPredicate, preprocess, convert_to_python, subAnd,
    subOr, subNotParen, skipSpacesParen, reSub, tryBangQuote, tryBangAny, tryQuote,
    tokenize, pyParseExpr, parseL, pyEvalAst, pyStrip]

/-- C7 (amended): a malformed expression whose converted form is not a
valid Python expression — such as the unbalanced ("error" and "warn" —
compiles to a predicate returning false on every input line, and no
exception reaches the caller (parse and evaluation failures are caught
and become False; the evaluation is total); but a malformed expression
that happens to be valid Python over the variable text, such as the bare
token text, instead returns that value's truthiness, which can be
true. -/
theorem C7_malformed_never_raises : ∀ line : String,
    mkMatcher "(\"error\" and \"warn\"" true line = false := by
  intro line
  have hparse : pyParseExpr (convert_to_python
      (preprocess (pyStrip "(\"error\" and \"warn\"").data)) = none := by
    simp +decide [preprocess, convert_to_python, subAnd, subOr, subNotParen,
      skipSpacesParen, reSub, tryBangQuote, tryBangAny, tryQuote, tokenize, pyParseExpr,
      parseL, pyStrip]
  simp [mkMatcher, logicalPredicate, hparse]
